import Mathlib

/-!
# Verification of the traffic-network cost model and routing engine

Shallow embedding, over `ℚ`, of the core of the `ps1` traffic backend:

* `backend/game_theory.py` — the BPR cost function `calculate_travel_time`
  and the Price-of-Anarchy aggregation `calculate_metrics`;
* `backend/main.py` — snapshot filtering, graph construction (`build_graph`),
  the shortest-path endpoint (`get_path`), the node listing (`get_nodes`)
  and the monetized cost summary (`get_traffic_status`);
* `backend/ml_inference.py` — the two-tier congestion forecaster
  (`predict_congestion`).

Python floats are modelled as rationals.  The `round(x, n)` calls that the
endpoints apply to the *output* values just before serialization are
presentational and are not modelled; all properties below are about the
values the code computes (the same unrounded values the code itself uses
for every internal decision, e.g. the `poa > 1.1` status test).

Library calls (`networkx`, `numpy`/`pandas` sorting, `random.uniform`,
`hash`, the regression model) are modelled by their contracts, as explained
at each definition.
-/

namespace Traffix

open scoped List

/-! ## `backend/game_theory.py` -/

/-- `calculate_travel_time` from `game_theory.py`:
`free_flow_time * (1 + 0.15 * ((congestion_score / 20) ** 4))`,
with default `free_flow_time=10`. -/
def calculate_travel_time (congestion_score : ℚ) (free_flow_time : ℚ := 10) : ℚ :=
  free_flow_time * (1 + (15/100) * ((congestion_score / 20) ^ 4))

/-- One element of the `traffic_data` list passed to `calculate_metrics`:
a dict `{'from': ..., 'to': ..., 'congestion': ...}`. -/
structure TrafficRecord where
  src : String
  dst : String
  congestion : ℚ
  deriving Repr, DecidableEq

/-- The dict returned by `calculate_metrics` (the `round(...)` calls applied
to the returned numbers are presentational and not modelled;
`status` is decided by the code from the unrounded `poa`). -/
structure Metrics where
  price_of_anarchy : ℚ
  nash_cost : ℚ
  optimal_cost : ℚ
  status : String
  deriving Repr, DecidableEq

/-- `calculate_metrics` from `game_theory.py`. -/
def calculate_metrics (traffic_data : List TrafficRecord) : Metrics :=
  if traffic_data = [] then
    { price_of_anarchy := 0, nash_cost := 0, optimal_cost := 0, status := "No Data" }
  else
    let current_congestion := traffic_data.map (·.congestion)
    let nash_total_cost := (current_congestion.map (calculate_travel_time ·)).sum
    let optimal_congestion := current_congestion.map (fun c => if c > 70 then (70 : ℚ) else c)
    let optimal_sum := (optimal_congestion.map (calculate_travel_time ·)).sum
    -- `if optimal_total_cost == 0: optimal_total_cost = 1`
    let optimal_total_cost := if optimal_sum = 0 then 1 else optimal_sum
    let poa := nash_total_cost / optimal_total_cost
    { price_of_anarchy := poa
      nash_cost := nash_total_cost
      optimal_cost := optimal_total_cost
      status := if poa > 1.1 then "Inefficient" else "Optimal" }

/-! Basic facts about the cost function. -/

theorem calculate_travel_time_nonneg (c ff : ℚ) (hff : 0 ≤ ff) :
    0 ≤ calculate_travel_time c ff := by
  unfold calculate_travel_time
  have h4 : (0:ℚ) ≤ (c / 20) ^ 4 := by positivity
  nlinarith

theorem calculate_travel_time_ge_ff (c ff : ℚ) (hff : 0 ≤ ff) :
    ff ≤ calculate_travel_time c ff := by
  unfold calculate_travel_time
  have h4 : (0:ℚ) ≤ (c / 20) ^ 4 := by positivity
  nlinarith

theorem calculate_travel_time_mono (c₁ c₂ ff : ℚ) (hff : 0 < ff)
    (h0 : 0 ≤ c₁) (h : c₁ < c₂) :
    calculate_travel_time c₁ ff < calculate_travel_time c₂ ff := by
  unfold calculate_travel_time
  have hp : (c₁ / 20) ^ 4 < (c₂ / 20) ^ 4 := by
    have hdiv : c₁ / 20 < c₂ / 20 := by linarith
    exact pow_lt_pow_left₀ hdiv (by positivity) (by norm_num)
  have := mul_lt_mul_of_pos_left
    (show 1 + (15/100 : ℚ) * ((c₁ / 20) ^ 4) < 1 + (15/100) * ((c₂ / 20) ^ 4) by nlinarith) hff
  linarith

theorem sum_travel_nonneg (l : List ℚ) : 0 ≤ (l.map (calculate_travel_time ·)).sum := by
  induction l with
  | nil => simp
  | cons a l ih =>
    simp only [List.map_cons, List.sum_cons]
    have := calculate_travel_time_nonneg a 10 (by norm_num)
    linarith

theorem sum_travel_zero (l : List ℚ) (h : ∀ c ∈ l, c = 0) :
    (l.map (calculate_travel_time ·)).sum = 10 * l.length := by
  induction l with
  | nil => simp
  | cons a l ih =>
    have ha : a = 0 := h a (List.mem_cons_self a l)
    have hrest : ∀ c ∈ l, c = 0 := fun c hc => h c (List.mem_cons_of_mem a hc)
    simp only [List.map_cons, List.sum_cons, ih hrest, ha, List.length_cons]
    unfold calculate_travel_time
    push_cast
    ring

/-- The system-optimal congestion regime as the spec words it: each congestion
value strictly greater than 70 is replaced by exactly 70 (a hard cap) before the
percentage-scale cost function is applied and the results are summed. -/
def specOptimalSum (data : List TrafficRecord) : ℚ :=
  (data.map (fun r => calculate_travel_time (if r.congestion > 70 then 70 else r.congestion))).sum

/-- **C1.** For every non-empty list of edge records, `calculate_metrics`
computes the optimal cost by hard-capping each congestion value strictly above
70 at exactly 70 before the percentage-scale cost function, substitutes 1 when
the optimal sum is zero, returns `priceOfAnarchy = nashCost / optimalCost`,
labels the status `"Inefficient"` exactly when PoA > 1.1; the PoA is exactly 1
when every congestion value is 0, and the PoA is always nonnegative. -/
theorem C1_calculate_metrics_spec (data : List TrafficRecord) (hne : data ≠ []) :
    (calculate_metrics data).nash_cost
        = (data.map (fun r => calculate_travel_time r.congestion)).sum ∧
    (calculate_metrics data).optimal_cost
        = (if specOptimalSum data = 0 then 1 else specOptimalSum data) ∧
    (calculate_metrics data).price_of_anarchy
        = (calculate_metrics data).nash_cost / (calculate_metrics data).optimal_cost ∧
    ((calculate_metrics data).status = "Inefficient"
        ↔ (calculate_metrics data).price_of_anarchy > 1.1) ∧
    ((∀ r ∈ data, r.congestion = 0) → (calculate_metrics data).price_of_anarchy = 1) ∧
    0 ≤ (calculate_metrics data).price_of_anarchy := by
  have hosum_spec : (((data.map (·.congestion)).map (fun c => if c > 70 then (70:ℚ) else c)).map
      (calculate_travel_time ·)).sum = specOptimalSum data := by
    simp only [specOptimalSum, List.map_map]
    rfl
  have hbody : calculate_metrics data =
      { price_of_anarchy :=
          ((data.map (·.congestion)).map (calculate_travel_time ·)).sum /
            (if specOptimalSum data = 0 then 1 else specOptimalSum data)
        nash_cost := ((data.map (·.congestion)).map (calculate_travel_time ·)).sum
        optimal_cost := if specOptimalSum data = 0 then 1 else specOptimalSum data
        status :=
          if ((data.map (·.congestion)).map (calculate_travel_time ·)).sum /
              (if specOptimalSum data = 0 then 1 else specOptimalSum data) > 1.1
          then "Inefficient" else "Optimal" } := by
    simp only [calculate_metrics, if_neg hne, hosum_spec]
  rw [hbody]
  set nash := ((data.map (·.congestion)).map (calculate_travel_time ·)).sum with hnash
  set opt := if specOptimalSum data = 0 then 1 else specOptimalSum data with hopt
  have hnash_nonneg : 0 ≤ nash := sum_travel_nonneg _
  have hspec_nonneg : 0 ≤ specOptimalSum data := by
    have := sum_travel_nonneg ((data.map (·.congestion)).map (fun c => if c > 70 then (70:ℚ) else c))
    rwa [hosum_spec] at this
  have hopt_pos : 0 < opt := by
    rw [hopt]
    split
    · norm_num
    · rename_i h
      exact lt_of_le_of_ne hspec_nonneg (Ne.symm h)
  refine ⟨by rw [hnash, List.map_map]; rfl, rfl, rfl, ?_, ?_, ?_⟩
  · constructor
    · intro hs
      by_contra hpoa
      simp only [if_neg hpoa] at hs
      exact absurd hs (by decide)
    · intro hpoa
      simp [if_pos hpoa]
  · intro hzero
    have hcs : ∀ c ∈ data.map (·.congestion), c = 0 := by
      intro c hc
      obtain ⟨r, hr, rfl⟩ := List.mem_map.mp hc
      exact hzero r hr
    have hclamp : (data.map (·.congestion)).map (fun c => if c > 70 then (70:ℚ) else c)
        = data.map (·.congestion) := by
      have h1 : (data.map (·.congestion)).map (fun c => if c > 70 then (70:ℚ) else c)
          = (data.map (·.congestion)).map id :=
        List.map_congr_left (fun a ha => by simp [hcs a ha])
      simpa using h1
    have hso : specOptimalSum data = nash := by
      rw [← hosum_spec, hclamp, hnash]
    have hnash_val : nash = 10 * (data.length : ℚ) := by
      rw [hnash, sum_travel_zero _ hcs, List.length_map]
    have hlen_pos : (0:ℚ) < (data.length : ℚ) := by
      have h0 : data.length ≠ 0 := fun h => hne (List.eq_nil_of_length_eq_zero h)
      exact_mod_cast Nat.pos_of_ne_zero h0
    have hnash_ne : nash ≠ 0 := by rw [hnash_val]; positivity
    have hopt_eq_nash : opt = nash := by
      rw [hopt, hso, if_neg hnash_ne]
    rw [hopt_eq_nash, div_self hnash_ne]
  · exact div_nonneg hnash_nonneg (le_of_lt hopt_pos)

/-- **C3.** `calculate_travel_time` equals
`freeFlowTime * (1 + 0.15 * (c/20)^4)` for every congestion score, is
strictly increasing on nonnegative scores (both at the default base time 10
and for every positive base time), and is exactly the base time at score 0. -/
theorem C3_cost_function_spec (c c₁ c₂ : ℚ) :
    (∀ ff : ℚ, calculate_travel_time c ff = ff * (1 + (15/100) * ((c/20)^4))) ∧
    (0 ≤ c₁ → c₁ < c₂ → calculate_travel_time c₁ < calculate_travel_time c₂) ∧
    (∀ ff : ℚ, 0 < ff → 0 ≤ c₁ → c₁ < c₂ →
        calculate_travel_time c₁ ff < calculate_travel_time c₂ ff) ∧
    calculate_travel_time 0 = 10 ∧
    (∀ ff : ℚ, calculate_travel_time 0 ff = ff) := by
  refine ⟨fun ff => rfl, ?_, ?_, ?_, ?_⟩
  · exact fun h0 h => calculate_travel_time_mono c₁ c₂ 10 (by norm_num) h0 h
  · exact fun ff hff h0 h => calculate_travel_time_mono c₁ c₂ ff hff h0 h
  · unfold calculate_travel_time; norm_num
  · intro ff; unfold calculate_travel_time; norm_num

/-- Witness for C1 at the concrete record list `[⟨"A","B",80⟩, ⟨"B","C",10⟩]`. -/
theorem C1_calculate_metrics_spec_witness :
    ([⟨"A", "B", 80⟩, ⟨"B", "C", 10⟩] : List TrafficRecord) ≠ [] ∧
    ((calculate_metrics [⟨"A", "B", 80⟩, ⟨"B", "C", 10⟩]).status = "Inefficient"
        ↔ (calculate_metrics [⟨"A", "B", 80⟩, ⟨"B", "C", 10⟩]).price_of_anarchy > 1.1) ∧
    0 ≤ (calculate_metrics [⟨"A", "B", 80⟩, ⟨"B", "C", 10⟩]).price_of_anarchy := by
  have h := C1_calculate_metrics_spec [⟨"A", "B", 80⟩, ⟨"B", "C", 10⟩] (by decide)
  exact ⟨by decide, h.2.2.2.1, h.2.2.2.2.2⟩

/-- Witness for C3 at `c = 5`, `c₁ = 1 < c₂ = 2`, `ff = 10`. -/
theorem C3_cost_function_spec_witness :
    (0:ℚ) ≤ 1 ∧ (1:ℚ) < 2 ∧ (0:ℚ) < 10 ∧
    calculate_travel_time 1 < calculate_travel_time 2 ∧
    calculate_travel_time (1:ℚ) 10 < calculate_travel_time 2 10 := by
  have h := C3_cost_function_spec 5 1 2
  exact ⟨by norm_num, by norm_num, by norm_num,
    h.2.1 (by norm_num) (by norm_num),
    h.2.2.1 10 (by norm_num) (by norm_num) (by norm_num)⟩

/-! ## `backend/main.py` — snapshot rows, sorting and graph construction -/

/-- One row of the traffic snapshot frame, with the columns `main.py` reads.
`speed` and `flow` are `Option` because the code tolerates those columns being
absent (`speed` defaults to 40 at graph construction, `flow` to 1000 in the
monetized summary, per-row in the source's `row`-level checks).  `ts` is the
row's `timestamp` value. -/
structure Row where
  u : String
  v : String
  congestion_level : ℚ
  speed : Option ℚ := none
  flow : Option ℚ := none
  ts : ℚ := 0
  deriving Repr, DecidableEq, Inhabited

/-- `data_frame['timestamp'].max()` (0 on an empty frame; the code only takes
the maximum of a non-empty frame). -/
def maxTs (rows : List Row) : ℚ := (rows.map (·.ts)).foldr max 0

/-- `current_df`: the rows at the latest timestamp when a `timestamp` column
is present and the frame is non-empty, otherwise all rows with no filtering. -/
def filterCurrent (hasTs : Bool) (rows : List Row) : List Row :=
  if hasTs = true ∧ rows ≠ [] then rows.filter (fun r => decide (r.ts = maxTs rows)) else rows

/-- Descending comparison of snapshot rows by congestion, on
(original position, row) pairs: `rowGe a b` holds when `a`'s congestion is at
least `b`'s. -/
def rowGe (a b : Nat × Row) : Prop := b.2.congestion_level ≤ a.2.congestion_level

instance : DecidableRel rowGe := fun a b =>
  inferInstanceAs (Decidable (b.2.congestion_level ≤ a.2.congestion_level))

instance : IsTotal (Nat × Row) rowGe := ⟨fun x y => le_total y.2.congestion_level x.2.congestion_level⟩

instance : IsTrans (Nat × Row) rowGe := ⟨fun _ _ _ h₁ h₂ => le_trans h₂ h₁⟩

/-- `df.sort_values('congestion_level', ascending=False)` on
(original position, row) pairs.  For a descending sort pandas (`nargsort`)
reverses the array *before* the ascending argsort and reverses the resulting
indexer *after*; the two reversals cancel on equal keys, so with the stable
kernels numpy actually runs (plain insertion sort on partitions of at most
16 elements, and `mergesort`/`stable` throughout) tied rows keep their
original relative order in the descending result.  Modelled as a stable
descending insertion sort. -/
def sortDesc (l : List (Nat × Row)) : List (Nat × Row) :=
  List.insertionSort rowGe l

/-- `max(1, int(len(sorted_df) * 0.15))`.  `int(n * 0.15)` over Python doubles
equals `⌊15 n / 100⌋` for every frame length: the relative error of the double
nearest to 0.15 is under every half-ulp, so the rounded product truncates to
the exact floor. -/
def topCount (n : Nat) : Nat := max 1 (15 * n / 100)

/-- Original positions of the rows selected for the optimized-regime
discount: `sorted_df.head(top_15_percent_count).index`. -/
def topIdx (rows : List Row) : List Nat :=
  ((sortDesc rows.enum).take (topCount rows.length)).map Prod.fst

/-- The optimized-regime adjustment
`current_df.loc[top_edges, 'congestion_level'] *= 0.85` applied to a frame. -/
def applyOptimization (rows : List Row) : List Row :=
  rows.enum.map (fun p =>
    if p.1 ∈ topIdx rows then
      { p.2 with congestion_level := p.2.congestion_level * (85/100) }
    else p.2)

/-- Attribute record attached to a directed edge of the built graph. -/
structure EdgeData where
  weight : ℚ
  speed : ℚ
  congestion_level : ℚ
  deriving Repr, DecidableEq

/-- A directed graph as `nx.from_pandas_edgelist(..., create_using=nx.DiGraph())`
produces: an edge list keyed by ordered (source, target) pairs. -/
structure Graph where
  edges : List (String × String × EdgeData)
  deriving Repr, DecidableEq

/-- The attribute record of edge `(u,v)`.  `nx.DiGraph` keeps at most one edge
per ordered pair; on duplicate rows the last insertion wins. -/
def Graph.edgeData (g : Graph) (u v : String) : Option EdgeData :=
  ((g.edges.filter (fun e => decide (e.1 = u ∧ e.2.1 = v))).getLast?).map (·.2.2)

def Graph.hasEdge (g : Graph) (u v : String) : Bool :=
  (g.edgeData u v).isSome

def Graph.edgeWeight (g : Graph) (u v : String) : ℚ :=
  ((g.edgeData u v).map (·.weight)).getD 0

def Graph.edgeSpeed (g : Graph) (u v : String) : ℚ :=
  ((g.edgeData u v).map (·.speed)).getD 0

/-- The node set: every source or target of some edge (isolated nodes never
appear). -/
def Graph.nodes (g : Graph) : List String :=
  (g.edges.map (·.1) ++ g.edges.map (·.2.1)).dedup

/-- `build_graph(data_frame, optimized)` from `main.py`: filter to the latest
timestamp, optionally apply the top-15% discount, then emit one directed edge
per row with `weight = congestion_level` (post-adjustment), the row's `speed`
(40 when the column is absent) and the post-adjustment `congestion_level`. -/
def build_graph (rows : List Row) (hasTs : Bool) (optimized : Bool) : Graph :=
  let current := filterCurrent hasTs rows
  let current := if optimized then applyOptimization current else current
  { edges := current.map (fun r =>
      (r.u, r.v,
        { weight := r.congestion_level, speed := r.speed.getD 40,
          congestion_level := r.congestion_level })) }

/-! ### Facts about the descending sort and the top-15% selection -/

theorem sortDesc_perm (l : List (Nat × Row)) : sortDesc l ~ l :=
  List.perm_insertionSort rowGe l

theorem sortDesc_length (l : List (Nat × Row)) : (sortDesc l).length = l.length :=
  (sortDesc_perm l).length_eq

theorem sortDesc_sorted (l : List (Nat × Row)) : (sortDesc l).Pairwise rowGe :=
  List.sorted_insertionSort rowGe l

theorem enum_map_fst_nodup (l : List Row) : (l.enum.map Prod.fst).Nodup := by
  rw [List.enum_eq_enumFrom, List.enumFrom_map_fst]
  exact List.nodup_range' 0 l.length

theorem enum_nodup (l : List Row) : l.enum.Nodup :=
  List.Nodup.of_map Prod.fst (enum_map_fst_nodup l)

theorem mem_enum_spec {l : List Row} {p : Nat × Row} (hp : p ∈ l.enum) :
    p.1 < l.length ∧ p.2 = l.getD p.1 default := by
  obtain ⟨i, hi, hget⟩ := List.getElem_of_mem hp
  have hi' : i < l.length := by simpa [List.enum_length] using hi
  have : l.enum[i] = (i, l[i]) := by
    simp [List.enum_eq_enumFrom, List.getElem_enumFrom]
  rw [this] at hget
  subst hget
  exact ⟨hi', (List.getD_eq_getElem l default hi').symm⟩

theorem enum_mem (l : List Row) (j : Nat) (h : j < l.length) :
    (j, l.getD j default) ∈ l.enum := by
  have hj : j < l.enum.length := by simpa [List.enum_length] using h
  have : l.enum[j] = (j, l.getD j default) := by
    simp [List.enum_eq_enumFrom, List.getElem_enumFrom, List.getElem?_eq_getElem h]
  rw [← this]
  exact List.getElem_mem hj

theorem topCount_le (n : Nat) (hn : 1 ≤ n) : topCount n ≤ n := by
  unfold topCount; omega

theorem topIdx_length (rows : List Row) (hne : rows ≠ []) :
    (topIdx rows).length = topCount rows.length := by
  have hn : 1 ≤ rows.length := List.length_pos.mpr hne
  have hk := topCount_le rows.length hn
  simp only [topIdx, List.length_map, List.length_take, sortDesc_length, List.enum_length]
  omega

theorem sortDesc_map_fst_nodup (rows : List Row) :
    ((sortDesc rows.enum).map Prod.fst).Nodup := by
  have hperm : (sortDesc rows.enum).map Prod.fst ~ rows.enum.map Prod.fst :=
    (sortDesc_perm _).map _
  exact hperm.nodup_iff.mpr (enum_map_fst_nodup rows)

theorem topIdx_nodup (rows : List Row) : (topIdx rows).Nodup := by
  have hsub : ((sortDesc rows.enum).take (topCount rows.length)).map Prod.fst
      <+ (sortDesc rows.enum).map Prod.fst :=
    (List.take_sublist _ _).map _
  exact List.Nodup.sublist hsub (sortDesc_map_fst_nodup rows)

theorem topIdx_lt (rows : List Row) : ∀ i ∈ topIdx rows, i < rows.length := by
  intro i hi
  obtain ⟨p, hp, rfl⟩ := List.mem_map.mp hi
  have hp2 : p ∈ sortDesc rows.enum := List.mem_of_mem_take hp
  have hp3 : p ∈ rows.enum := (sortDesc_perm _).subset hp2
  exact (mem_enum_spec hp3).1

theorem applyOptimization_length (rows : List Row) :
    (applyOptimization rows).length = rows.length := by
  simp [applyOptimization, List.enum_length]

theorem applyOptimization_getD (rows : List Row) (i : Nat) (h : i < rows.length) :
    (applyOptimization rows).getD i default =
      (if i ∈ topIdx rows then
        { rows.getD i default with
            congestion_level := (rows.getD i default).congestion_level * (85/100) }
       else rows.getD i default) := by
  have hlen : i < (applyOptimization rows).length := by
    rw [applyOptimization_length]; exact h
  have hen : i < rows.enum.length := by simpa [List.enum_length] using h
  rw [List.getD_eq_getElem _ _ hlen]
  simp only [applyOptimization, List.getElem_map, List.enum_eq_enumFrom,
    List.getElem_enumFrom, Nat.zero_add]
  have hgd : rows.getD i default = rows[i] := List.getD_eq_getElem _ _ h
  rw [hgd]

/-- Elements at two increasing positions form a two-element sublist. -/
theorem pair_get_sublist {α : Type _} (l : List α) (i j : Nat) (hij : i < j)
    (hj : j < l.length) :
    [l.get ⟨i, lt_trans hij hj⟩, l.get ⟨j, hj⟩] <+ l := by
  have hi : i < l.length := lt_trans hij hj
  have h1 : [l.get ⟨j, hj⟩] <+ l.drop (i+1) := by
    rw [List.singleton_sublist]
    have hj' : j - (i+1) < (l.drop (i+1)).length := by
      simp only [List.length_drop]; omega
    have hdg : (l.drop (i+1)).get ⟨j - (i+1), hj'⟩ = l.get ⟨j, hj⟩ := by
      simp only [List.get_eq_getElem, List.getElem_drop]
      congr 1
      omega
    rw [← hdg]
    exact List.get_mem _ _ _
  have h2 : [l.get ⟨i, hi⟩, l.get ⟨j, hj⟩] <+ l.get ⟨i, hi⟩ :: l.drop (i+1) :=
    List.Sublist.cons₂ _ h1
  have h3 : l.get ⟨i, hi⟩ :: l.drop (i+1) = l.drop i := by
    simp only [List.get_eq_getElem]
    exact List.getElem_cons_drop l i hi
  have h4 : [l.get ⟨i, hi⟩, l.get ⟨j, hj⟩] <+ l.drop i := h3 ▸ h2
  exact h4.trans (List.drop_sublist i l)

/-- In a duplicate-free list, if `[a, b]` is a sublist and `b` lies in the
first `k` elements, so does `a`. -/
theorem mem_take_of_pair_sublist {α : Type _} {a b : α} :
    ∀ (l : List α) (k : Nat), l.Nodup → [a, b] <+ l → b ∈ l.take k → a ∈ l.take k
  | [], _, _, _, hb => absurd hb (by simp)
  | x :: l', k, hnd, hsub, hb => by
    cases k with
    | zero => simp at hb
    | succ k' =>
      rw [List.take_succ_cons] at hb ⊢
      cases hsub with
      | cons₂ _ h' => exact List.mem_cons_self _ _
      | cons _ h' =>
        rcases List.mem_cons.mp hb with hbx | hb'
        · have hbmem : b ∈ l' := h'.subset (by simp)
          rw [hbx] at hbmem
          exact absurd hbmem (List.nodup_cons.mp hnd).1
        · exact List.mem_cons_of_mem _
            (mem_take_of_pair_sublist l' k' (List.nodup_cons.mp hnd).2 h' hb')

theorem sortDesc_nodup (rows : List Row) : (sortDesc rows.enum).Nodup :=
  ((sortDesc_perm rows.enum).nodup_iff).mpr (enum_nodup rows)

/-- Members of the selection dominate every unselected row's congestion. -/
theorem topIdx_ge (rows : List Row) :
    ∀ i ∈ topIdx rows, ∀ j, j < rows.length → j ∉ topIdx rows →
      (rows.getD j default).congestion_level ≤ (rows.getD i default).congestion_level := by
  intro i hi j hj hjn
  obtain ⟨p, hp, hpi⟩ := List.mem_map.mp hi
  have hpmem : p ∈ rows.enum := (sortDesc_perm _).subset (List.mem_of_mem_take hp)
  have hpspec := mem_enum_spec hpmem
  have hjpair : (j, rows.getD j default) ∈ sortDesc rows.enum :=
    (sortDesc_perm _).mem_iff.mpr (enum_mem rows j hj)
  have hsplit := List.take_append_drop (topCount rows.length) (sortDesc rows.enum)
  have hjdrop : (j, rows.getD j default) ∈ (sortDesc rows.enum).drop (topCount rows.length) := by
    rcases List.mem_append.mp (by rw [hsplit]; exact hjpair) with hjt | hjd
    · exact absurd (List.mem_map.mpr ⟨_, hjt, rfl⟩) hjn
    · exact hjd
  have hpw : ((sortDesc rows.enum).take (topCount rows.length) ++
      (sortDesc rows.enum).drop (topCount rows.length)).Pairwise rowGe := by
    rw [hsplit]; exact sortDesc_sorted _
  have hrel := (List.pairwise_append.mp hpw).2.2 p hp (j, rows.getD j default) hjdrop
  have : (rows.getD j default).congestion_level ≤ p.2.congestion_level := hrel
  rw [hpspec.2, hpi] at this
  exact this

/-- The selection breaks ties by *original row order*: among rows with equal
congestion, if a later row is selected then so is every earlier tied row —
the stable descending sort lists tied rows in their original order. -/
theorem topIdx_tie (rows : List Row) :
    ∀ i j, i < j → j < rows.length →
      (rows.getD i default).congestion_level = (rows.getD j default).congestion_level →
      j ∈ topIdx rows → i ∈ topIdx rows := by
  intro i j hij hj heq hjtop
  have hi' : i < rows.length := lt_trans hij hj
  have hienum : i < rows.enum.length := by simpa [List.enum_length] using hi'
  have hjenum : j < rows.enum.length := by simpa [List.enum_length] using hj
  have hgi : rows.enum.get ⟨i, hienum⟩ = (i, rows.getD i default) := by
    simp [List.enum_eq_enumFrom, List.getElem_enumFrom, List.getElem?_eq_getElem hi']
  have hgj : rows.enum.get ⟨j, hjenum⟩ = (j, rows.getD j default) := by
    simp [List.enum_eq_enumFrom, List.getElem_enumFrom, List.getElem?_eq_getElem hj]
  have hsub0 : [(i, rows.getD i default), (j, rows.getD j default)] <+ rows.enum := by
    have := pair_get_sublist rows.enum i j hij hjenum
    rwa [hgi, hgj] at this
  have hge : rowGe (i, rows.getD i default) (j, rows.getD j default) := le_of_eq heq.symm
  have hsorted : [(i, rows.getD i default), (j, rows.getD j default)]
      <+ sortDesc rows.enum :=
    List.pair_sublist_insertionSort hge hsub0
  -- `j ∈ topIdx` gives the pair of `j` inside the taken prefix
  obtain ⟨p, hp, hpj⟩ := List.mem_map.mp hjtop
  have hpmem : p ∈ rows.enum := (sortDesc_perm _).subset (List.mem_of_mem_take hp)
  have hpspec := mem_enum_spec hpmem
  have hpeq : p = (j, rows.getD j default) := by
    have h2 := hpspec.2
    rw [hpj] at h2
    rw [← h2, ← hpj]
  rw [hpeq] at hp
  have hit : (i, rows.getD i default) ∈ (sortDesc rows.enum).take (topCount rows.length) :=
    mem_take_of_pair_sublist _ _ (sortDesc_nodup rows) hsorted hp
  exact List.mem_map.mpr ⟨_, hit, rfl⟩

theorem topIdx_single (r : Row) : topIdx [r] = [0] := by
  unfold topIdx sortDesc topCount
  simp [List.insertionSort, List.enum]

theorem filterCurrent_false (rows : List Row) : filterCurrent false rows = rows := by
  simp [filterCurrent]

/-! ### C2: the Optimized-regime discount -/

/-- Two snapshot rows tied at congestion 0.5, exercising the tie-break. -/
def tieRows : List Row :=
  [{ u := "A", v := "B", congestion_level := 1/2 },
   { u := "C", v := "D", congestion_level := 1/2 }]

/-- **C2.** Optimized-regime graph construction on a snapshot of `n ≥ 1`
current rows multiplies the congestionRatio of exactly `max(1, ⌊0.15·n⌋)`
rows by 0.85 — always rows with the highest pre-discount congestionRatio,
with ties broken by original row order (whenever a later row of some
congestion value is selected, every earlier row with the same value is
selected too) — and leaves every other row's congestionRatio unchanged; for
`n = 1` exactly the one row is discounted. -/
theorem C2_optimized_discount (rows : List Row) (hne : rows ≠ []) :
    (build_graph rows false true).edges = (applyOptimization rows).map (fun r =>
      (r.u, r.v,
        { weight := r.congestion_level, speed := r.speed.getD 40,
          congestion_level := r.congestion_level })) ∧
    (topIdx rows).length = max 1 (15 * rows.length / 100) ∧
    (topIdx rows).Nodup ∧
    (∀ i ∈ topIdx rows, i < rows.length) ∧
    (applyOptimization rows).length = rows.length ∧
    (∀ i, i < rows.length →
      (applyOptimization rows).getD i default =
        (if i ∈ topIdx rows then
          { rows.getD i default with
              congestion_level := (rows.getD i default).congestion_level * (85/100) }
         else rows.getD i default)) ∧
    (∀ i ∈ topIdx rows, ∀ j, j < rows.length → j ∉ topIdx rows →
      (rows.getD j default).congestion_level ≤ (rows.getD i default).congestion_level) ∧
    (∀ i j, i < j → j < rows.length →
      (rows.getD i default).congestion_level = (rows.getD j default).congestion_level →
      j ∈ topIdx rows → i ∈ topIdx rows) ∧
    (∀ r : Row, rows = [r] → topIdx rows = [0]) := by
  refine ⟨?_, topIdx_length rows hne, topIdx_nodup rows, topIdx_lt rows,
    applyOptimization_length rows, fun i h => applyOptimization_getD rows i h,
    topIdx_ge rows, topIdx_tie rows, ?_⟩
  · simp [build_graph, filterCurrent_false]
  · intro r hr
    rw [hr]
    exact topIdx_single r

/-- The single discounted row used as a witness for C2. -/
def witRowA : Row := { u := "A", v := "B", congestion_level := 9/10 }

/-- Witness for C2: at the one-row snapshot exactly one row is selected, and
at two rows tied at congestion 0.5 the selection takes the *first* row —
ties broken by original row order, as the claim states. -/
theorem C2_optimized_discount_witness :
    ([witRowA] : List Row) ≠ [] ∧
    (topIdx [witRowA]).length = max 1 (15 * ([witRowA] : List Row).length / 100) ∧
    topIdx [witRowA] = [0] ∧
    tieRows ≠ [] ∧
    (topIdx tieRows).length = max 1 (15 * tieRows.length / 100) ∧
    topIdx tieRows = [0] ∧
    (applyOptimization tieRows).map (·.congestion_level) = [17/40, 1/2] := by
  have h1 := C2_optimized_discount [witRowA] (by decide)
  have h2 := C2_optimized_discount tieRows (by decide)
  have htop : topIdx tieRows = [0] := by
    unfold topIdx sortDesc topCount tieRows
    norm_num [List.insertionSort, List.orderedInsert, List.enum, rowGe]
  have happ : (applyOptimization tieRows).map (·.congestion_level) = [17/40, 1/2] := by
    unfold applyOptimization
    rw [htop]
    unfold tieRows
    norm_num [List.enum]
  exact ⟨by decide, h1.2.1, h1.2.2.2.2.2.2.2.2 witRowA rfl, by decide, h2.2.1, htop, happ⟩

/-! ### `networkx` shortest paths, modelled by contract

`main.py` calls `nx.shortest_path(G, source, target, weight='weight')`
(Dijkstra).  The library is modelled by its contract: among all directed
walks from `source` to `target` it returns one of minimum total weight
(the library's own tie-break between equal-cost walks is irrelevant to every
property proved below), and it raises `nx.NetworkXNoPath` — modelled as
`none` — exactly when no directed walk exists.  The executable model
enumerates every walk of at most `|nodes|` edges and takes the first
minimizer, which realizes that contract whenever the edge weights are
nonnegative (they are, for every graph the backend builds). -/

/-- A directed walk in `g` from `s` to `t`: a non-empty node sequence that
starts at `s`, ends at `t`, and steps along directed edges. -/
def Graph.IsWalk (g : Graph) (s t : String) (p : List String) : Prop :=
  p.head? = some s ∧ p.getLast? = some t ∧ p.Chain' (fun a b => g.hasEdge a b = true)

instance (g : Graph) (s t : String) (p : List String) : Decidable (g.IsWalk s t p) :=
  inferInstanceAs (Decidable (_ ∧ _ ∧ _))

/-- Total weight of the consecutive edges along a node sequence (the
`total_congestion` accumulation loop of `get_path`). -/
def Graph.walkWeight (g : Graph) : List String → ℚ
  | a :: b :: rest => g.edgeWeight a b + Graph.walkWeight g (b :: rest)
  | _ => 0

/-- Targets of the edges leaving `u`. -/
def Graph.successors (g : Graph) (u : String) : List String :=
  (g.edges.filter (fun e => decide (e.1 = u))).map (fun e => e.2.1)

/-- All walks from `s` to `t` of at most `fuel` edges. -/
def Graph.walksUpTo (g : Graph) (fuel : Nat) (s t : String) : List (List String) :=
  (if s = t then [[t]] else []) ++
  match fuel with
  | 0 => []
  | Nat.succ f => (g.successors s).flatMap (fun n => (g.walksUpTo f n t).map (s :: ·))

/-- First minimizer of `walkWeight` in a list of candidate walks. -/
def argminWeight (g : Graph) : List (List String) → Option (List String)
  | [] => none
  | p :: ps =>
      some (ps.foldl (fun best q => if g.walkWeight q < g.walkWeight best then q else best) p)

/-- The model of `nx.shortest_path(G, s, t, weight='weight')`. -/
def nx_shortest_path (g : Graph) (s t : String) : Option (List String) :=
  argminWeight g (g.walksUpTo g.nodes.length s t)

theorem hasEdge_iff_successors (g : Graph) (u v : String) :
    g.hasEdge u v = true ↔ v ∈ g.successors u := by
  unfold Graph.hasEdge Graph.edgeData Graph.successors
  rw [Option.isSome_map', List.getLast?_isSome]
  constructor
  · intro hne
    obtain ⟨e, he⟩ := List.exists_mem_of_ne_nil _ hne
    have he' := List.mem_filter.mp he
    have hprop := of_decide_eq_true he'.2
    refine List.mem_map.mpr ⟨e, List.mem_filter.mpr ⟨he'.1, ?_⟩, hprop.2⟩
    exact decide_eq_true hprop.1
  · intro hv
    obtain ⟨e, he, hev⟩ := List.mem_map.mp hv
    have he' := List.mem_filter.mp he
    have heu := of_decide_eq_true he'.2
    intro hnil
    have : e ∈ g.edges.filter (fun e => decide (e.1 = u ∧ e.2.1 = v)) :=
      List.mem_filter.mpr ⟨he'.1, decide_eq_true ⟨heu, hev⟩⟩
    rw [hnil] at this
    exact absurd this (List.not_mem_nil e)

theorem hasEdge_mem_edges (g : Graph) (u v : String) (h : g.hasEdge u v = true) :
    ∃ e ∈ g.edges, e.1 = u ∧ e.2.1 = v := by
  unfold Graph.hasEdge Graph.edgeData at h
  rw [Option.isSome_map', List.getLast?_isSome] at h
  obtain ⟨e, he⟩ := List.exists_mem_of_ne_nil _ h
  have he' := List.mem_filter.mp he
  exact ⟨e, he'.1, of_decide_eq_true he'.2⟩

theorem hasEdge_mem_nodes (g : Graph) (u v : String) (h : g.hasEdge u v = true) :
    u ∈ g.nodes ∧ v ∈ g.nodes := by
  obtain ⟨e, he, heu, hev⟩ := hasEdge_mem_edges g u v h
  unfold Graph.nodes
  constructor
  · rw [List.mem_dedup, List.mem_append]
    exact Or.inl (List.mem_map.mpr ⟨e, he, heu⟩)
  · rw [List.mem_dedup, List.mem_append]
    exact Or.inr (List.mem_map.mpr ⟨e, he, hev⟩)

theorem edgeWeight_nonneg (g : Graph) (hw : ∀ e ∈ g.edges, 0 ≤ e.2.2.weight)
    (u v : String) : 0 ≤ g.edgeWeight u v := by
  unfold Graph.edgeWeight Graph.edgeData
  cases hlast : (g.edges.filter (fun e => decide (e.1 = u ∧ e.2.1 = v))).getLast? with
  | none => simp
  | some e =>
    have he : e ∈ g.edges :=
      List.mem_of_mem_filter (List.mem_of_getLast?_eq_some hlast)
    simpa using hw e he

theorem walkWeight_nonneg (g : Graph) (hw : ∀ e ∈ g.edges, 0 ≤ e.2.2.weight) :
    ∀ p : List String, 0 ≤ g.walkWeight p
  | [] => le_refl 0
  | [_] => le_refl 0
  | a :: b :: rest => by
    have h1 := edgeWeight_nonneg g hw a b
    have h2 := walkWeight_nonneg g hw (b :: rest)
    simp only [Graph.walkWeight]
    linarith

theorem mem_walks_base (g : Graph) {s t : String} {p : List String}
    (hp : p ∈ (if s = t then [[t]] else ([] : List (List String)))) : g.IsWalk s t p := by
  by_cases hst : s = t
  · rw [if_pos hst] at hp
    have hp' : p = [t] := by simpa using hp
    subst hp'
    subst hst
    exact ⟨rfl, rfl, List.chain'_singleton s⟩
  · rw [if_neg hst] at hp
    exact absurd hp (List.not_mem_nil p)

theorem walksUpTo_sound (g : Graph) :
    ∀ (fuel : Nat) (s t : String) (p : List String),
      p ∈ g.walksUpTo fuel s t → g.IsWalk s t p := by
  intro fuel
  induction fuel with
  | zero =>
    intro s t p hp
    simp only [Graph.walksUpTo, List.append_nil] at hp
    exact mem_walks_base g hp
  | succ f ih =>
    intro s t p hp
    rcases List.mem_append.mp hp with hleft | hright
    · exact mem_walks_base g hleft
    · obtain ⟨n, hn, hq⟩ := List.mem_flatMap.mp hright
      obtain ⟨q, hqmem, rfl⟩ := List.mem_map.mp hq
      obtain ⟨hqh, hql, hqc⟩ := ih n t q hqmem
      cases q with
      | nil => exact absurd hqh (by simp)
      | cons y q' =>
        have hy : y = n := by simpa using hqh
        subst hy
        refine ⟨rfl, by simpa using hql, ?_⟩
        rw [List.chain'_cons]
        exact ⟨(hasEdge_iff_successors g s y).mpr hn, hqc⟩

theorem walksUpTo_complete (g : Graph) :
    ∀ (p : List String) (fuel : Nat) (s t : String),
      g.IsWalk s t p → p.length ≤ fuel + 1 → p ∈ g.walksUpTo fuel s t
  | [], _, s, t => by
    intro hw _
    exact absurd hw.1 (by simp)
  | [x], fuel, s, t => by
    intro hw _
    have hxs : x = s := by simpa using hw.1
    have hxt : x = t := by simpa using hw.2.1
    subst hxs
    subst hxt
    cases fuel with
    | zero => simp [Graph.walksUpTo]
    | succ f => simp [Graph.walksUpTo]
  | x :: y :: q, fuel, s, t => by
    intro hw hlen
    have hxs : x = s := by simpa using hw.1
    subst hxs
    have hchain := List.chain'_cons.mp hw.2.2
    have hedge : g.hasEdge x y = true := hchain.1
    obtain ⟨f, rfl⟩ : ∃ f, fuel = f + 1 := by
      cases fuel with
      | zero =>
        exfalso
        simp only [List.length_cons] at hlen
        omega
      | succ f => exact ⟨f, rfl⟩
    have hwalk : g.IsWalk y t (y :: q) :=
      ⟨rfl, by simpa using hw.2.1, hchain.2⟩
    have hlen' : (y :: q).length ≤ f + 1 := by
      simp only [List.length_cons] at hlen ⊢
      omega
    have hmem := walksUpTo_complete g (y :: q) f y t hwalk hlen'
    apply List.mem_append.mpr
    refine Or.inr (List.mem_flatMap.mpr ⟨y, (hasEdge_iff_successors g x y).mp hedge, ?_⟩)
    exact List.mem_map.mpr ⟨y :: q, hmem, rfl⟩

theorem foldl_min_spec (g : Graph) :
    ∀ (ps : List (List String)) (p : List String),
      ((ps.foldl (fun best q => if g.walkWeight q < g.walkWeight best then q else best) p) = p ∨
        (ps.foldl (fun best q => if g.walkWeight q < g.walkWeight best then q else best) p) ∈ ps) ∧
      g.walkWeight (ps.foldl (fun best q => if g.walkWeight q < g.walkWeight best then q else best) p)
        ≤ g.walkWeight p ∧
      ∀ q ∈ ps,
        g.walkWeight
          (ps.foldl (fun best q => if g.walkWeight q < g.walkWeight best then q else best) p)
          ≤ g.walkWeight q
  | [], p => ⟨Or.inl rfl, le_refl _, fun q hq => absurd hq (List.not_mem_nil q)⟩
  | q :: ps, p => by
    simp only [List.foldl_cons]
    obtain ⟨hmem, hle, hall⟩ :=
      foldl_min_spec g ps (if g.walkWeight q < g.walkWeight p then q else p)
    by_cases hlt : g.walkWeight q < g.walkWeight p
    · rw [if_pos hlt] at hmem hle hall ⊢
      refine ⟨?_, le_trans hle (le_of_lt hlt), ?_⟩
      · rcases hmem with h | h
        · exact Or.inr (by rw [h]; exact List.mem_cons_self q ps)
        · exact Or.inr (List.mem_cons_of_mem q h)
      · intro q' hq'
        rcases List.mem_cons.mp hq' with rfl | hq''
        · exact hle
        · exact hall q' hq''
    · rw [if_neg hlt] at hmem hle hall ⊢
      refine ⟨?_, hle, ?_⟩
      · rcases hmem with h | h
        · exact Or.inl h
        · exact Or.inr (List.mem_cons_of_mem q h)
      · intro q' hq'
        rcases List.mem_cons.mp hq' with rfl | hq''
        · exact le_trans hle (le_of_not_lt hlt)
        · exact hall q' hq''

theorem argminWeight_spec (g : Graph) (l : List (List String)) (hl : l ≠ []) :
    ∃ m, argminWeight g l = some m ∧ m ∈ l ∧
      ∀ q ∈ l, g.walkWeight m ≤ g.walkWeight q := by
  cases l with
  | nil => exact absurd rfl hl
  | cons p ps =>
    obtain ⟨hmem, hle, hall⟩ := foldl_min_spec g ps p
    refine ⟨_, rfl, ?_, ?_⟩
    · rcases hmem with h | h
      · rw [h]; exact List.mem_cons_self p ps
      · exact List.mem_cons_of_mem p h
    · intro q hq
      rcases List.mem_cons.mp hq with rfl | hq'
      · exact hle
      · exact hall q hq'

theorem walkWeight_cons_cons (g : Graph) (a b : String) (l : List String) :
    g.walkWeight (a :: b :: l) = g.edgeWeight a b + g.walkWeight (b :: l) := rfl

theorem walkWeight_append (g : Graph) :
    ∀ (l₁ : List String) (a : String) (l₂ : List String),
      g.walkWeight (l₁ ++ a :: l₂) = g.walkWeight (l₁ ++ [a]) + g.walkWeight (a :: l₂)
  | [], a, l₂ => by simp [Graph.walkWeight]
  | [x], a, l₂ => by
    have h0 : g.walkWeight [a] = 0 := rfl
    simp only [List.cons_append, List.nil_append, walkWeight_cons_cons, h0]
    ring
  | x :: y :: l₁, a, l₂ => by
    have ih := walkWeight_append g (y :: l₁) a l₂
    simp only [List.cons_append] at ih ⊢
    rw [walkWeight_cons_cons, walkWeight_cons_cons, ih]
    ring

/-- Cutting out a cycle keeps a walk a walk. -/
theorem isWalk_splice (g : Graph) (s t a : String) (l₁ l₂ l₃ : List String)
    (h : g.IsWalk s t ((l₁ ++ a :: l₂) ++ a :: l₃)) :
    g.IsWalk s t (l₁ ++ a :: l₃) := by
  obtain ⟨hh, hl, hc⟩ := h
  have hsplit1 := List.chain'_append.mp hc
  have hsplit2 := List.chain'_append.mp hsplit1.1
  refine ⟨?_, ?_, ?_⟩
  · cases l₁ with
    | nil => simpa using hh
    | cons x l₁' => simpa using hh
  · rw [List.getLast?_append] at hl ⊢
    simpa using hl
  · apply List.chain'_append.mpr
    refine ⟨hsplit2.1, hsplit1.2.1, ?_⟩
    intro x hx y hy
    simp only [List.head?_cons, Option.mem_def, Option.some.injEq] at hy
    subst hy
    exact hsplit2.2.2 x hx a (by simp)

theorem walkWeight_splice_le (g : Graph) (hw : ∀ e ∈ g.edges, 0 ≤ e.2.2.weight)
    (a : String) (l₁ l₂ l₃ : List String) :
    g.walkWeight (l₁ ++ a :: l₃) ≤ g.walkWeight ((l₁ ++ a :: l₂) ++ a :: l₃) := by
  have h1 : g.walkWeight ((l₁ ++ a :: l₂) ++ a :: l₃)
      = g.walkWeight ((l₁ ++ a :: l₂) ++ [a]) + g.walkWeight (a :: l₃) :=
    walkWeight_append g (l₁ ++ a :: l₂) a l₃
  have hassoc : (l₁ ++ a :: l₂) ++ [a] = l₁ ++ a :: (l₂ ++ [a]) := by
    simp [List.append_assoc]
  have h2 : g.walkWeight ((l₁ ++ a :: l₂) ++ [a])
      = g.walkWeight (l₁ ++ [a]) + g.walkWeight (a :: (l₂ ++ [a])) := by
    rw [hassoc]
    exact walkWeight_append g l₁ a (l₂ ++ [a])
  have h3 : g.walkWeight (l₁ ++ a :: l₃)
      = g.walkWeight (l₁ ++ [a]) + g.walkWeight (a :: l₃) :=
    walkWeight_append g l₁ a l₃
  have h4 : 0 ≤ g.walkWeight (a :: (l₂ ++ [a])) := walkWeight_nonneg g hw _
  rw [h1, h2, h3]
  linarith

theorem exists_dup_decomposition {α : Type _} {l : List α} (h : ¬ l.Nodup) :
    ∃ (a : α) (l₁ l₂ l₃ : List α), l = (l₁ ++ a :: l₂) ++ a :: l₃ := by
  obtain ⟨a, hdup⟩ := List.exists_duplicate_iff_not_nodup.mpr h
  have hsub : [a, a] <+ l := List.duplicate_iff_sublist.mp hdup
  obtain ⟨r₁, r₂, rfl, ha₁, hsub₂⟩ := List.cons_sublist_iff.mp hsub
  have ha₂ : a ∈ r₂ := by
    obtain ⟨m₁, m₂, rfl, ham, _⟩ := List.cons_sublist_iff.mp hsub₂
    exact List.mem_append.mpr (Or.inl ham)
  obtain ⟨s₁, s₂, rfl⟩ := List.append_of_mem ha₁
  obtain ⟨u₁, u₂, rfl⟩ := List.append_of_mem ha₂
  exact ⟨a, s₁, s₂ ++ u₁, u₂, by simp [List.append_assoc]⟩

/-- Every walk dominates a duplicate-free walk with the same endpoints when
edge weights are nonnegative. -/
theorem decycle (g : Graph) (hw : ∀ e ∈ g.edges, 0 ≤ e.2.2.weight) :
    ∀ (n : Nat) (p : List String) (s t : String), p.length ≤ n → g.IsWalk s t p →
      ∃ q, g.IsWalk s t q ∧ q.Nodup ∧ g.walkWeight q ≤ g.walkWeight p := by
  intro n
  induction n with
  | zero =>
    intro p s t hlen hwalk
    have hnil : p = [] := List.eq_nil_of_length_eq_zero (Nat.le_zero.mp hlen)
    subst hnil
    exact absurd hwalk.1 (by simp)
  | succ n ih =>
    intro p s t hlen hwalk
    by_cases hnd : p.Nodup
    · exact ⟨p, hwalk, hnd, le_refl _⟩
    · obtain ⟨a, l₁, l₂, l₃, rfl⟩ := exists_dup_decomposition hnd
      have hq_walk : g.IsWalk s t (l₁ ++ a :: l₃) := isWalk_splice g s t a l₁ l₂ l₃ hwalk
      have hq_len : (l₁ ++ a :: l₃).length ≤ n := by
        simp only [List.length_append, List.length_cons] at hlen ⊢
        omega
      obtain ⟨q, h1, h2, h3⟩ := ih (l₁ ++ a :: l₃) s t hq_len hq_walk
      exact ⟨q, h1, h2, le_trans h3 (walkWeight_splice_le g hw a l₁ l₂ l₃)⟩

theorem chain_subset_nodes (g : Graph) :
    ∀ (p : List String), p.Chain' (fun a b => g.hasEdge a b = true) → 2 ≤ p.length →
      ∀ z ∈ p, z ∈ g.nodes
  | [] => by intro _ h; simp at h
  | [x] => by intro _ h; simp at h
  | x :: y :: rest => by
    intro hc _ z hz
    have hcc := List.chain'_cons.mp hc
    have hxy := hasEdge_mem_nodes g x y hcc.1
    rcases List.mem_cons.mp hz with rfl | hz'
    · exact hxy.1
    · cases rest with
      | nil =>
        have hzy : z = y := by simpa using hz'
        subst hzy
        exact hxy.2
      | cons w rest' =>
        exact chain_subset_nodes g (y :: w :: rest') hcc.2 (by simp) z hz'

theorem nodup_walk_length_le (g : Graph) (s t : String) (p : List String)
    (hwalk : g.IsWalk s t p) (hnd : p.Nodup) : p.length ≤ g.nodes.length + 1 := by
  cases p with
  | nil => simp
  | cons x rest =>
    cases rest with
    | nil => simp
    | cons y rest' =>
      have hsub : ∀ z ∈ x :: y :: rest', z ∈ g.nodes :=
        chain_subset_nodes g _ hwalk.2.2 (by simp)
      have hcard : (x :: y :: rest').length ≤ g.nodes.length := by
        calc (x :: y :: rest').length = (x :: y :: rest').toFinset.card :=
              (List.toFinset_card_of_nodup hnd).symm
          _ ≤ g.nodes.toFinset.card :=
              Finset.card_le_card
                (fun z hz => List.mem_toFinset.mpr (hsub z (List.mem_toFinset.mp hz)))
          _ ≤ g.nodes.length := List.toFinset_card_le _
      omega

/-- The shortest-path model returns a minimum-weight walk whenever some walk
exists and every edge weight is nonnegative. -/
theorem nx_shortest_path_spec (g : Graph) (hw : ∀ e ∈ g.edges, 0 ≤ e.2.2.weight)
    (s t : String) (p₀ : List String) (hp₀ : g.IsWalk s t p₀) :
    ∃ m, nx_shortest_path g s t = some m ∧ g.IsWalk s t m ∧
      ∀ q, g.IsWalk s t q → g.walkWeight m ≤ g.walkWeight q := by
  obtain ⟨q₀, hq₀w, hq₀nd, _⟩ := decycle g hw p₀.length p₀ s t (le_refl _) hp₀
  have hq₀len : q₀.length ≤ g.nodes.length + 1 := nodup_walk_length_le g s t q₀ hq₀w hq₀nd
  have hq₀mem : q₀ ∈ g.walksUpTo g.nodes.length s t :=
    walksUpTo_complete g q₀ g.nodes.length s t hq₀w hq₀len
  have hne : g.walksUpTo g.nodes.length s t ≠ [] := by
    intro h
    rw [h] at hq₀mem
    exact absurd hq₀mem (List.not_mem_nil q₀)
  obtain ⟨m, hm, hmem, hmin⟩ := argminWeight_spec g _ hne
  refine ⟨m, hm, walksUpTo_sound g _ s t m hmem, ?_⟩
  intro q hq
  obtain ⟨q', hq'w, hq'nd, hq'le⟩ := decycle g hw q.length q s t (le_refl _) hq
  have hq'mem : q' ∈ g.walksUpTo g.nodes.length s t :=
    walksUpTo_complete g q' g.nodes.length s t hq'w (nodup_walk_length_le g s t q' hq'w hq'nd)
  exact le_trans (hmin q' hq'mem) hq'le

theorem nx_shortest_path_eq_none (g : Graph) (s t : String)
    (h : ∀ p, ¬ g.IsWalk s t p) : nx_shortest_path g s t = none := by
  unfold nx_shortest_path
  cases henum : g.walksUpTo g.nodes.length s t with
  | nil => rfl
  | cons p ps =>
    have hp : p ∈ g.walksUpTo g.nodes.length s t := by
      rw [henum]
      exact List.mem_cons_self p ps
    exact absurd (walksUpTo_sound g _ s t p hp) (h p)

theorem nx_shortest_path_some_isWalk (g : Graph) (s t : String) (m : List String)
    (h : nx_shortest_path g s t = some m) : g.IsWalk s t m := by
  unfold nx_shortest_path at h
  cases henum : g.walksUpTo g.nodes.length s t with
  | nil =>
    rw [henum] at h
    simp [argminWeight] at h
  | cons p ps =>
    rw [henum] at h
    obtain ⟨m', hm', hmem, _⟩ := argminWeight_spec g (p :: ps) (by simp)
    rw [hm'] at h
    have hmm : m' = m := by injection h
    rw [← hmm]
    apply walksUpTo_sound g g.nodes.length s t
    rw [henum]
    exact hmem

/-! ### The `/get-path` endpoint -/

/-- Python exceptions that can arise inside the `try:` block of `get_path`. -/
inductive PyExc where
  | httpExc (status : Nat) (detail : String)
  | noPath
  deriving Repr, DecidableEq

/-- One element of `path_details`. -/
structure PathEdgeDetail where
  src : String
  dst : String
  congestion : ℚ
  speed : ℚ
  deriving Repr, DecidableEq

/-- The `/get-path` success payload. -/
structure PathResponse where
  path : List String
  edges : List PathEdgeDetail
  total_weight : ℚ
  deriving Repr, DecidableEq

/-- The `path_details` loop of `get_path`: one record per consecutive node
pair, with `congestion = weight * 100` and the edge's speed
(`data.get('speed', 0)`). -/
def Graph.pathDetails (g : Graph) : List String → List PathEdgeDetail
  | a :: b :: rest =>
      { src := a, dst := b, congestion := g.edgeWeight a b * 100,
        speed := g.edgeSpeed a b } :: Graph.pathDetails g (b :: rest)
  | _ => []

/-- The body of the `try:` block of the `/get-path` endpoint: the node check
(raising `HTTPException(404, ...)`), the `nx.shortest_path` call (raising
`NetworkXNoPath` when no path exists), and the response construction. -/
def get_path_inner (g : Graph) (source target : String) : Except PyExc PathResponse :=
  if source ∉ g.nodes ∨ target ∉ g.nodes then
    Except.error (PyExc.httpExc 404 "Source or Target node not found in network.")
  else
    match nx_shortest_path g source target with
    | none => Except.error PyExc.noPath
    | some p =>
        Except.ok { path := p, edges := g.pathDetails p, total_weight := g.walkWeight p }

/-- The `/get-path` endpoint with its `except` clauses.  `except
nx.NetworkXNoPath` re-raises as HTTP 404; the final `except Exception`
catches *everything else* — including the `HTTPException(404)` raised for a
missing node, since FastAPI's `HTTPException` subclasses `Exception` — and
re-raises it as HTTP 500 with `str(e)` as the detail. -/
def get_path (rows : List Row) (hasTs : Bool) (mode : String) (source target : String) :
    Except (Nat × String) PathResponse :=
  let G := build_graph rows hasTs (decide (mode = "optimized"))
  match get_path_inner G source target with
  | Except.ok r => Except.ok r
  | Except.error PyExc.noPath =>
      Except.error (404, "No path found between selected nodes.")
  | Except.error (PyExc.httpExc _ d) => Except.error (500, d)

/-- `totalWeight` is the sum of the per-pair edge weights. -/
theorem walkWeight_eq_sum_zip (g : Graph) :
    ∀ p : List String,
      g.walkWeight p = ((p.zip p.tail).map (fun pr => g.edgeWeight pr.1 pr.2)).sum
  | [] => rfl
  | [_] => rfl
  | a :: b :: rest => by
    have ih := walkWeight_eq_sum_zip g (b :: rest)
    simp only [List.zip_cons_cons, List.tail_cons, List.map_cons, List.sum_cons] at ih ⊢
    rw [walkWeight_cons_cons, ih]

/-- The detail records are exactly the per-consecutive-pair records with
`congestionPercent = weight * 100` and the edge's speed. -/
theorem pathDetails_eq_zip (g : Graph) :
    ∀ p : List String,
      g.pathDetails p = (p.zip p.tail).map (fun pr =>
        { src := pr.1, dst := pr.2, congestion := g.edgeWeight pr.1 pr.2 * 100,
          speed := g.edgeSpeed pr.1 pr.2 : PathEdgeDetail })
  | [] => rfl
  | [_] => rfl
  | a :: b :: rest => by
    have ih := pathDetails_eq_zip g (b :: rest)
    simp only [List.zip_cons_cons, List.tail_cons, List.map_cons] at ih ⊢
    rw [Graph.pathDetails, ih]

/-- **C4.** For every graph with nonnegative edge weights (as built by
`build_graph`) and every source/target pair connected by a directed path,
the path query returns a minimum-total-weight directed walk; its edge-detail
records carry `congestionPercent = weight * 100` and the edge speed for each
consecutive node pair, and its `totalWeight` is the sum of the edge weights
along the path — the shortest-path distance. -/
theorem C4_shortest_path_spec (g : Graph) (source target : String)
    (hw : ∀ e ∈ g.edges, 0 ≤ e.2.2.weight)
    (p₀ : List String) (hconn : g.IsWalk source target p₀)
    (hs : source ∈ g.nodes) (ht : target ∈ g.nodes) :
    ∃ r, get_path_inner g source target = Except.ok r ∧
      g.IsWalk source target r.path ∧
      (∀ q, g.IsWalk source target q → g.walkWeight r.path ≤ g.walkWeight q) ∧
      r.total_weight = g.walkWeight r.path ∧
      r.total_weight
        = ((r.path.zip r.path.tail).map (fun pr => g.edgeWeight pr.1 pr.2)).sum ∧
      r.edges = (r.path.zip r.path.tail).map (fun pr =>
        { src := pr.1, dst := pr.2, congestion := g.edgeWeight pr.1 pr.2 * 100,
          speed := g.edgeSpeed pr.1 pr.2 : PathEdgeDetail }) := by
  obtain ⟨m, hm, hmwalk, hmmin⟩ := nx_shortest_path_spec g hw source target p₀ hconn
  refine ⟨{ path := m, edges := g.pathDetails m, total_weight := g.walkWeight m }, ?_,
    hmwalk, hmmin, rfl, walkWeight_eq_sum_zip g m, pathDetails_eq_zip g m⟩
  unfold get_path_inner
  rw [if_neg (by push_neg; exact ⟨hs, ht⟩), hm]

/-- The single snapshot row `A → B` with congestion 0.4 from the spec's
single-edge scenario. -/
def rowAB : Row := { u := "A", v := "B", congestion_level := 2/5 }

theorem gAB_edges : (build_graph [rowAB] false false).edges
    = [("A", "B", { weight := 2/5, speed := 40, congestion_level := 2/5 })] := by
  simp [build_graph, filterCurrent, rowAB]

theorem gAB_nodes : (build_graph [rowAB] false false).nodes = ["A", "B"] := by
  decide

theorem gAB_shortest :
    nx_shortest_path (build_graph [rowAB] false false) "A" "B" = some ["A", "B"] := by
  decide

theorem gAB_edgeWeight : (build_graph [rowAB] false false).edgeWeight "A" "B" = 2/5 := by
  rw [Graph.edgeWeight, Graph.edgeData, gAB_edges]
  simp

theorem gAB_edgeSpeed : (build_graph [rowAB] false false).edgeSpeed "A" "B" = 40 := by
  rw [Graph.edgeSpeed, Graph.edgeData, gAB_edges]
  simp

theorem gAB_walk : (build_graph [rowAB] false false).IsWalk "A" "B" ["A", "B"] := by
  refine ⟨rfl, rfl, ?_⟩
  rw [List.chain'_cons]
  exact ⟨by decide, List.chain'_singleton _⟩

/-- The `/get-path` response on the single-edge graph: path `[A,B]`,
`totalWeight = 0.4`, `congestionPercent = 40`. -/
theorem get_path_AB :
    get_path [rowAB] false "current" "A" "B" =
      Except.ok { path := ["A", "B"],
                  edges := [{ src := "A", dst := "B", congestion := 40, speed := 40 }],
                  total_weight := 2/5 } := by
  have hmode : decide (("current" : String) = "optimized") = false := by decide
  have hdet : (build_graph [rowAB] false false).pathDetails ["A", "B"]
      = [{ src := "A", dst := "B", congestion := 40, speed := 40 }] := by
    show [({ src := "A", dst := "B",
             congestion := (build_graph [rowAB] false false).edgeWeight "A" "B" * 100,
             speed := (build_graph [rowAB] false false).edgeSpeed "A" "B" } : PathEdgeDetail)]
        = [{ src := "A", dst := "B", congestion := 40, speed := 40 }]
    rw [gAB_edgeWeight, gAB_edgeSpeed]
    norm_num
  have hwt : (build_graph [rowAB] false false).walkWeight ["A", "B"] = 2/5 := by
    rw [walkWeight_cons_cons, gAB_edgeWeight]
    show (2:ℚ)/5 + (build_graph [rowAB] false false).walkWeight ["B"] = 2/5
    norm_num [Graph.walkWeight]
  have hinner : get_path_inner (build_graph [rowAB] false false) "A" "B" =
      Except.ok { path := ["A", "B"],
                  edges := [{ src := "A", dst := "B", congestion := 40, speed := 40 }],
                  total_weight := 2/5 } := by
    unfold get_path_inner
    rw [if_neg (by rw [gAB_nodes]; simp)]
    simp only [gAB_shortest, hdet, hwt]
  unfold get_path
  rw [hmode]
  simp only [hinner]

/-- Witness for C4: the hypotheses hold on the single-edge graph and the
endpoint returns exactly the claimed response. -/
theorem C4_shortest_path_spec_witness :
    (∀ e ∈ (build_graph [rowAB] false false).edges, 0 ≤ e.2.2.weight) ∧
    (build_graph [rowAB] false false).IsWalk "A" "B" ["A", "B"] ∧
    "A" ∈ (build_graph [rowAB] false false).nodes ∧
    "B" ∈ (build_graph [rowAB] false false).nodes ∧
    (∃ r, get_path_inner (build_graph [rowAB] false false) "A" "B" = Except.ok r ∧
      (build_graph [rowAB] false false).IsWalk "A" "B" r.path ∧
      (∀ q, (build_graph [rowAB] false false).IsWalk "A" "B" q →
        (build_graph [rowAB] false false).walkWeight r.path
          ≤ (build_graph [rowAB] false false).walkWeight q) ∧
      r.total_weight = (build_graph [rowAB] false false).walkWeight r.path ∧
      r.total_weight = ((r.path.zip r.path.tail).map
        (fun pr => (build_graph [rowAB] false false).edgeWeight pr.1 pr.2)).sum ∧
      r.edges = (r.path.zip r.path.tail).map (fun pr =>
        { src := pr.1, dst := pr.2,
          congestion := (build_graph [rowAB] false false).edgeWeight pr.1 pr.2 * 100,
          speed := (build_graph [rowAB] false false).edgeSpeed pr.1 pr.2 : PathEdgeDetail })) ∧
    get_path [rowAB] false "current" "A" "B" =
      Except.ok { path := ["A", "B"],
                  edges := [{ src := "A", dst := "B", congestion := 40, speed := 40 }],
                  total_weight := 2/5 } := by
  have hw : ∀ e ∈ (build_graph [rowAB] false false).edges, 0 ≤ e.2.2.weight := by
    rw [gAB_edges]
    intro e he
    rcases List.mem_singleton.mp he with rfl
    norm_num
  exact ⟨hw, gAB_walk, by rw [gAB_nodes]; simp, by rw [gAB_nodes]; simp,
    C4_shortest_path_spec (build_graph [rowAB] false false) "A" "B" hw
      ["A", "B"] gAB_walk (by rw [gAB_nodes]; simp) (by rw [gAB_nodes]; simp),
    get_path_AB⟩

/-- **C5.** How routing-query failures actually surface.  A query whose
source is absent from the node set hits `raise HTTPException(404, ...)`
*inside* the `try:` block; the trailing `except Exception` catches that
`HTTPException` (it subclasses `Exception`) and re-raises it as HTTP **500** —
not the claimed not-found-class failure.  A query between unconnected nodes
does surface as 404. -/
theorem C5_node_not_found_becomes_500 :
    get_path [rowAB] false "current" "Z" "B"
      = Except.error (500, "Source or Target node not found in network.") ∧
    get_path [rowAB] false "current" "B" "A"
      = Except.error (404, "No path found between selected nodes.") := by
  exact ⟨rfl, rfl⟩

/-! ## `backend/ml_inference.py` — the congestion forecaster -/

/-- The dict returned by `predict_congestion` (the output `round(x, 1)` calls
are presentational and not modelled). -/
structure ForecastResult where
  congestion : ℚ
  speed : ℚ
  confidence : String
  deriving Repr, DecidableEq

/-- The predictor state after `_ensure_model_loaded`.  `model` is the loaded
regression model — `none` when the artifact is missing, and the inner
`Option` models `model.predict` raising.  `encoders` is the encoder dict —
the outer `Option` models `self.encoders is None`, the per-name `Option`
models `name in self.encoders`, and the innermost `Option` models
`transform` raising on an unseen category. -/
structure MLState where
  model : Option (List ℚ → Option ℚ)
  encoders : Option (String → Option (String → Option Int))

/-- The guarded encoding of the tier-1 branch: `x_encoded = 0`, overwritten
by `self.encoders[name].transform([value])[0]` only when the encoder exists
and does not raise (`except: pass` keeps the 0). -/
def safeEncode (encoders : String → Option (String → Option Int))
    (name : String) (value : String) : Int :=
  match encoders name with
  | none => 0
  | some f => (f value).getD 0

/-- The tier-2 heuristic: `seed = hash(u + v + str(hour))`, a seeded
`random.uniform(20, 90)` draw as the congestion percentage, and
`speed = 60 * (1 - congestion/100)`.  Python's `hash` and the seeded
`random.uniform(20, 90)` draw are modelled as the pure parameters `hashFn`
and `uniform2090`; being functions of the seed alone is exactly the
determinism `random.seed(seed)` provides within one process. -/
def heuristicFallback (hashFn : String → Int) (uniform2090 : Int → ℚ)
    (u v : String) (hour : Int) (conf : String) : ForecastResult :=
  let seed := hashFn (u ++ v ++ toString hour)
  let congestion_pct := uniform2090 seed
  { congestion := congestion_pct
    speed := 60 * (1 - congestion_pct / 100)
    confidence := conf }

/-- `predict_congestion` from `ml_inference.py`. -/
def predict_congestion (st : MLState) (hashFn : String → Int) (uniform2090 : Int → ℚ)
    (u v : String) (hour : Int) (rain_intensity visibility temperature : ℚ)
    (event_type : String) (time_of_day_factor : ℚ := 1) : ForecastResult :=
  match st.model with
  | none => heuristicFallback hashFn uniform2090 u v hour "Low (Heuristic)"
  | some model =>
    match st.encoders with
    | none =>
        -- `raise ValueError("Encoders not loaded")`, caught by the `except`
        heuristicFallback hashFn uniform2090 u v hour "Low (Fallback)"
    | some encoders =>
        let u_encoded := safeEncode encoders "u" u
        let v_encoded := safeEncode encoders "v" v
        let event_encoded := safeEncode encoders "event_type" event_type
        let features : List ℚ :=
          [(u_encoded : ℚ), (v_encoded : ℚ), (hour : ℚ), rain_intensity, visibility,
            temperature, (event_encoded : ℚ), time_of_day_factor]
        match model features with
        | none => heuristicFallback hashFn uniform2090 u v hour "Low (Fallback)"
        | some raw =>
            let prediction := max 0 (min 1 raw)
            { congestion := prediction * 100
              speed := max 10 (60 * (1 - prediction * (7/10)))
              confidence :=
                if prediction < 1/5 ∨ prediction > 4/5 then "High" else "Medium" }

/-- **C7.** With model and encoders loaded and the model returning `raw`, the
prediction is clamped to `[0,1]`; the result is `congestion = clamp * 100`,
`speed = max(10, 60*(1 - 0.7*clamp))`, and confidence `"High"` iff
`clamp < 0.2` or `clamp > 0.8`, else `"Medium"`.  Categorical encoding is
total: a missing encoder or an encoder that raises on an unseen category
yields feature code 0 — nothing propagates past the encoder boundary. -/
theorem C7_tier1_spec (model : List ℚ → Option ℚ)
    (encoders : String → Option (String → Option Int))
    (hashFn : String → Int) (uniform2090 : Int → ℚ)
    (u v : String) (hour : Int) (rain visibility temperature : ℚ) (event : String)
    (raw : ℚ)
    (hmodel : model [((safeEncode encoders "u" u : Int) : ℚ),
        ((safeEncode encoders "v" v : Int) : ℚ), (hour : ℚ), rain, visibility,
        temperature, ((safeEncode encoders "event_type" event : Int) : ℚ), 1]
      = some raw) :
    predict_congestion ⟨some model, some encoders⟩ hashFn uniform2090
        u v hour rain visibility temperature event
      = { congestion := max 0 (min 1 raw) * 100
          speed := max 10 (60 * (1 - max 0 (min 1 raw) * (7/10)))
          confidence := if max 0 (min 1 raw) < 1/5 ∨ max 0 (min 1 raw) > 4/5
            then "High" else "Medium" } ∧
    ((predict_congestion ⟨some model, some encoders⟩ hashFn uniform2090
        u v hour rain visibility temperature event).confidence = "High"
      ↔ (max 0 (min 1 raw) < 1/5 ∨ max 0 (min 1 raw) > 4/5)) ∧
    0 ≤ max 0 (min 1 raw) ∧ max 0 (min 1 raw) ≤ 1 ∧
    (∀ name val, encoders name = none → safeEncode encoders name val = 0) ∧
    (∀ name val f, encoders name = some f → f val = none →
      safeEncode encoders name val = 0) := by
  have hbody : predict_congestion ⟨some model, some encoders⟩ hashFn uniform2090
      u v hour rain visibility temperature event
      = { congestion := max 0 (min 1 raw) * 100
          speed := max 10 (60 * (1 - max 0 (min 1 raw) * (7/10)))
          confidence := if max 0 (min 1 raw) < 1/5 ∨ max 0 (min 1 raw) > 4/5
            then "High" else "Medium" } := by
    unfold predict_congestion
    simp only [hmodel]
  refine ⟨hbody, ?_, le_max_left 0 _, ?_, ?_, ?_⟩
  · rw [hbody]
    constructor
    · intro hs
      by_contra hcond
      simp only [if_neg hcond] at hs
      exact absurd hs (by decide)
    · intro hcond
      rw [if_pos hcond]
  · exact max_le (by norm_num) (min_le_left 1 raw)
  · intro name val hen
    simp only [safeEncode, hen]
  · intro name val f hen hval
    simp only [safeEncode, hen, hval, Option.getD_none]

/-- Witness for C7 at a concrete state: the model returns 1/2 and every
encoder lookup fails, giving congestion 50, speed 39, confidence Medium. -/
theorem C7_tier1_spec_witness :
    ((fun _ : List ℚ => some (1/2 : ℚ))
        [((safeEncode (fun _ => none) "u" "A" : Int) : ℚ),
         ((safeEncode (fun _ => none) "v" "B" : Int) : ℚ), ((10 : Int) : ℚ), 0, 1,
         30, ((safeEncode (fun _ => none) "event_type" "None" : Int) : ℚ), 1]
      = some (1/2 : ℚ)) ∧
    predict_congestion ⟨some (fun _ => some (1/2)), some (fun _ => none)⟩
        (fun _ => 0) (fun _ => 55) "A" "B" 10 0 1 30 "None"
      = { congestion := 50, speed := 39, confidence := "Medium" } := by
  have h := C7_tier1_spec (fun _ => some (1/2)) (fun _ => none)
    (fun _ => 0) (fun _ => 55) "A" "B" 10 0 1 30 "None" (1/2) rfl
  refine ⟨rfl, ?_⟩
  rw [h.1]
  have hclamp : max (0:ℚ) (min 1 (1/2)) = 1/2 := by norm_num
  rw [hclamp]
  norm_num

/-- **C8.** Under the fallback tier (model artifact missing) the result is a
function of (source, target, hour) alone: rain, visibility, temperature, the
event type, the time-of-day factor and the encoder state have no influence;
the congestion is the seeded uniform draw at seed
`hash(source ++ target ++ str(hour))`, lies in `[20, 90]` whenever the
uniform draw respects its range, and `speed = 60 * (1 - congestion/100)`. -/
theorem C8_fallback_determinism (hashFn : String → Int) (uniform2090 : Int → ℚ)
    (u v : String) (hour : Int)
    (rain₁ vis₁ temp₁ rain₂ vis₂ temp₂ : ℚ) (event₁ event₂ : String) (tod₁ tod₂ : ℚ)
    (encoders₁ encoders₂ : Option (String → Option (String → Option Int))) :
    predict_congestion ⟨none, encoders₁⟩ hashFn uniform2090
        u v hour rain₁ vis₁ temp₁ event₁ tod₁
      = predict_congestion ⟨none, encoders₂⟩ hashFn uniform2090
          u v hour rain₂ vis₂ temp₂ event₂ tod₂ ∧
    (predict_congestion ⟨none, encoders₁⟩ hashFn uniform2090
        u v hour rain₁ vis₁ temp₁ event₁ tod₁).congestion
      = uniform2090 (hashFn (u ++ v ++ toString hour)) ∧
    ((∀ s, 20 ≤ uniform2090 s ∧ uniform2090 s ≤ 90) →
      20 ≤ (predict_congestion ⟨none, encoders₁⟩ hashFn uniform2090
        u v hour rain₁ vis₁ temp₁ event₁ tod₁).congestion ∧
      (predict_congestion ⟨none, encoders₁⟩ hashFn uniform2090
        u v hour rain₁ vis₁ temp₁ event₁ tod₁).congestion ≤ 90) ∧
    (predict_congestion ⟨none, encoders₁⟩ hashFn uniform2090
        u v hour rain₁ vis₁ temp₁ event₁ tod₁).speed
      = 60 * (1 - (predict_congestion ⟨none, encoders₁⟩ hashFn uniform2090
          u v hour rain₁ vis₁ temp₁ event₁ tod₁).congestion / 100) := by
  refine ⟨rfl, rfl, ?_, rfl⟩
  intro hrange
  exact hrange (hashFn (u ++ v ++ toString hour))

/-- Witness for C8 at a concrete fallback state with a constant in-range
uniform draw. -/
theorem C8_fallback_determinism_witness :
    (∀ s : Int, 20 ≤ (fun _ : Int => (55:ℚ)) s ∧ (fun _ : Int => (55:ℚ)) s ≤ 90) ∧
    predict_congestion ⟨none, none⟩ (fun _ => 0) (fun _ => 55) "A" "B" 10 0 1 30 "rain" 1
      = predict_congestion ⟨none, none⟩ (fun _ => 0) (fun _ => 55) "A" "B" 10 5 2 10 "None" 1 ∧
    20 ≤ (predict_congestion ⟨none, none⟩ (fun _ => 0) (fun _ => 55)
        "A" "B" 10 0 1 30 "rain" 1).congestion ∧
    (predict_congestion ⟨none, none⟩ (fun _ => 0) (fun _ => 55)
        "A" "B" 10 0 1 30 "rain" 1).congestion ≤ 90 := by
  have hr : ∀ s : Int, 20 ≤ (fun _ : Int => (55:ℚ)) s ∧ (fun _ : Int => (55:ℚ)) s ≤ 90 :=
    fun _ => ⟨by norm_num, by norm_num⟩
  have h := C8_fallback_determinism (fun _ => 0) (fun _ => 55) "A" "B" 10
    0 1 30 5 2 10 "rain" "None" 1 1 none none
  exact ⟨hr, h.1, (h.2.2.1 hr).1, (h.2.2.1 hr).2⟩

/-! ## The `/traffic-status` summary and the `/nodes` listing -/

/-- The `metrics` sub-dict of the `/traffic-status` payload (output rounding
is presentational and not modelled). -/
structure TSMetrics where
  price_of_anarchy : ℚ
  nash_cost : ℚ
  optimized_cost : ℚ
  total_throughput : ℚ
  deriving Repr, DecidableEq

/-- The `/traffic-status` payload; `bottleneck_edge = none` models the empty
dict returned for an empty frame. -/
structure TSResponse where
  edges : List (String × String × ℚ)
  metrics : TSMetrics
  bottleneck_edge : Option (String × String × ℚ)
  deriving Repr, DecidableEq

/-- `traffic_df['congestion_level'].idxmax()` row: pandas `idxmax` returns
the *first* row attaining the maximum. -/
def firstMaxRow (rows : List Row) : Option (Nat × Row) :=
  match rows.enum with
  | [] => none
  | p :: ps =>
      some (ps.foldl
        (fun best q => if q.2.congestion_level > best.2.congestion_level then q else best) p)

/-- The body of `/traffic-status` on the current-timestamp rows, after the
CSV read and the timestamp filter.  Per row: `flow` defaults to 1000 when the
column is absent; `travel_time = 0.5 * (1 + 0.15 * congestion^4)`; the
optimized pass discounts the `topIdx` rows (the same
`sort_values`/`head(max(1, int(0.15*n)))` selection as `build_graph`) by
0.85; both times are monetized at 150 currency units per hour.  (The
function's first loop also accumulates a `nash_cost` with `base_time = 1.0`
that the response never uses; that dead value is not modelled.) -/
def traffic_status_core (rows : List Row) : TSResponse :=
  let edges := rows.map (fun r => (r.u, r.v, r.congestion_level * 100))
  let total_throughput := (rows.map (fun r => r.flow.getD 0)).sum
  let system_time :=
    (rows.map (fun r =>
      (r.flow.getD 1000) * ((1/2) * (1 + (15/100) * r.congestion_level ^ 4)))).sum
  let optimized_time :=
    (rows.enum.map (fun p =>
      let oc := if p.1 ∈ topIdx rows then p.2.congestion_level * (85/100)
                else p.2.congestion_level
      (p.2.flow.getD 1000) * ((1/2) * (1 + (15/100) * oc ^ 4)))).sum
  let currency_nash_cost : ℚ := system_time * 150
  let currency_optimized_cost : ℚ := optimized_time * 150
  let poa : ℚ :=
    if currency_optimized_cost > 0 then currency_nash_cost / currency_optimized_cost
    else 1
  { edges := edges
    metrics :=
      { price_of_anarchy := poa
        nash_cost := currency_nash_cost
        optimized_cost := currency_optimized_cost
        total_throughput := total_throughput }
    bottleneck_edge :=
      (firstMaxRow rows).map (fun p => (p.2.u, p.2.v, p.2.congestion_level * 100)) }

/-- `/traffic-status`: re-reads the CSV on every request.  A missing file
(`none`) hits the `except FileNotFoundError` branch and returns the
`⦃"error": ...⦄` payload as a value (HTTP 200), modelled as `Sum.inl`. -/
def get_traffic_status (csv : Option (List Row)) (hasTs : Bool) : Sum String TSResponse :=
  match csv with
  | none => Sum.inl "traffic_data_simulated.csv not found"
  | some rows => Sum.inr (traffic_status_core (filterCurrent hasTs rows))

/-- `/nodes`: the empty list for an empty frame, otherwise the sorted set of
source/target names among the latest-timestamp rows (`sorted(set(...))`). -/
def get_nodes (rows : List Row) (hasTs : Bool) : List String :=
  if rows = [] then []
  else
    let curr := filterCurrent hasTs rows
    List.insertionSort (· ≤ ·) ((curr.map (·.u) ++ curr.map (·.v)).dedup)

/-! ### C6: the monetized report -/

/-- Claim-side formula: `systemTime = Σ flow · 0.5·(1 + 0.15·c⁴)`, flow
defaulting to 1000 when absent. -/
def specSystemTime (rows : List Row) : ℚ :=
  (rows.map (fun r =>
    (r.flow.getD 1000) * ((1/2) * (1 + (15/100) * r.congestion_level ^ 4)))).sum

/-- Claim-side formula: the same sum with the top-15%-by-congestion rows'
congestion multiplied by 0.85 (same selection rule as graph building). -/
def specOptimizedTime (rows : List Row) : ℚ :=
  (rows.enum.map (fun p =>
    (p.2.flow.getD 1000) * ((1/2) * (1 + (15/100) *
      (if p.1 ∈ topIdx rows then p.2.congestion_level * (85/100)
       else p.2.congestion_level) ^ 4)))).sum

/-- **C6.** The monetized report: `systemTime` is the flow-weighted BPR sum
with `baseTime = 0.5` and flow defaulting to 1000; `optimizedTime` repeats it
after discounting the `max(1, ⌊0.15·n⌋)` top-congestion rows by 0.85 (the
same selection rule as graph construction); both are monetized at 150
currency units per hour; `totalThroughput` sums the present flows and is 0
when flow is absent on all rows. -/
theorem C6_monetized_report (rows : List Row) :
    (traffic_status_core rows).metrics.nash_cost = specSystemTime rows * 150 ∧
    (traffic_status_core rows).metrics.optimized_cost = specOptimizedTime rows * 150 ∧
    (traffic_status_core rows).metrics.total_throughput
      = (rows.map (fun r => r.flow.getD 0)).sum ∧
    ((∀ r ∈ rows, r.flow = none) →
      (traffic_status_core rows).metrics.total_throughput = 0) ∧
    (rows ≠ [] → (topIdx rows).length = max 1 (15 * rows.length / 100)) := by
  refine ⟨rfl, rfl, rfl, ?_, fun hne => topIdx_length rows hne⟩
  intro hnone
  show (rows.map (fun r => r.flow.getD 0)).sum = 0
  have hmap : rows.map (fun r => r.flow.getD 0) = rows.map (fun _ => (0:ℚ)) :=
    List.map_congr_left (fun r hr => by rw [hnone r hr]; rfl)
  rw [hmap]
  simp

/-- The single no-flow row used as a witness for C6. -/
def witRowNF : Row := { u := "A", v := "B", congestion_level := 9/10 }

/-- Witness for C6 at the one-row, no-flow snapshot. -/
theorem C6_monetized_report_witness :
    (∀ r ∈ [witRowNF], r.flow = none) ∧
    (traffic_status_core [witRowNF]).metrics.total_throughput = 0 ∧
    ([witRowNF] : List Row) ≠ [] ∧
    (topIdx [witRowNF]).length = max 1 (15 * ([witRowNF] : List Row).length / 100) := by
  have hnone : ∀ r ∈ [witRowNF], r.flow = none := by
    intro r hr
    rcases List.mem_singleton.mp hr with rfl
    rfl
  have h := C6_monetized_report [witRowNF]
  exact ⟨hnone, h.2.2.2.1 hnone, by decide, h.2.2.2.2 (by decide)⟩

/-! ### C9: missing or empty snapshot -/

/-- **C9, counterexample.** When the snapshot CSV is missing at request time,
`/traffic-status` returns the `error` payload — not the empty/zeroed summary
the claim asserts for a missing snapshot. -/
theorem C9_missing_snapshot_counterexample :
    get_traffic_status none true = Sum.inl "traffic_data_simulated.csv not found" ∧
    (get_traffic_status none true).isRight = false :=
  ⟨rfl, rfl⟩

/-- **C9 (amended).** On an *empty* snapshot every core operation returns a
well-formed empty result: graph construction yields zero nodes and zero edges
under both regimes, the node listing is empty, and the cost summary is a
zeroed summary (costs and throughput 0, PoA 1.0 by the guard, no
bottleneck).  When the snapshot *file is missing* at request time, the cost
summary returns an error-message value — an error payload, though still not
a thrown failure. -/
theorem C9_empty_snapshot (hasTs optimized : Bool) :
    (build_graph [] hasTs optimized).edges = [] ∧
    (build_graph [] hasTs optimized).nodes = [] ∧
    get_nodes [] hasTs = [] ∧
    get_traffic_status (some []) hasTs = Sum.inr
      { edges := []
        metrics := { price_of_anarchy := 1, nash_cost := 0, optimized_cost := 0,
                     total_throughput := 0 }
        bottleneck_edge := none } ∧
    get_traffic_status none hasTs = Sum.inl "traffic_data_simulated.csv not found" := by
  have hfc : filterCurrent hasTs [] = [] := by
    unfold filterCurrent
    rw [if_neg (by simp)]
  have hbg : build_graph [] hasTs optimized = { edges := [] } := by
    simp only [build_graph, hfc]
    cases optimized <;> simp [applyOptimization]
  have hcore : traffic_status_core ([] : List Row) =
      { edges := []
        metrics := { price_of_anarchy := 1, nash_cost := 0, optimized_cost := 0,
                     total_throughput := 0 }
        bottleneck_edge := none } := by
    simp [traffic_status_core, firstMaxRow, List.enum]
  refine ⟨by rw [hbg], by rw [hbg]; rfl, rfl, ?_, rfl⟩
  show Sum.inr (traffic_status_core (filterCurrent hasTs [])) = _
  rw [hfc, hcore]

/-! ### C10: the monetized Price of Anarchy is at least 1 -/

/-- **C10.** For nonnegative congestion levels and flows, the monetized
optimized cost never exceeds the monetized Nash cost (the 0.85 discount only
lowers each selected row's congestion and the BPR formula is monotone in it),
so the reported Price of Anarchy is at least 1 — exactly 1.0 by definition
when the optimized cost is not positive. -/
theorem C10_monetized_poa_ge_one (rows : List Row)
    (hc : ∀ r ∈ rows, 0 ≤ r.congestion_level)
    (hf : ∀ r ∈ rows, 0 ≤ r.flow.getD 1000) :
    (traffic_status_core rows).metrics.optimized_cost
      ≤ (traffic_status_core rows).metrics.nash_cost ∧
    1 ≤ (traffic_status_core rows).metrics.price_of_anarchy := by
  have hterm : ∀ p ∈ rows.enum,
      (p.2.flow.getD 1000) * ((1/2) * (1 + (15/100) *
        (if p.1 ∈ topIdx rows then p.2.congestion_level * (85/100)
         else p.2.congestion_level) ^ 4))
      ≤ (p.2.flow.getD 1000) * ((1/2) * (1 + (15/100) * p.2.congestion_level ^ 4)) := by
    intro p hp
    have hs := mem_enum_spec hp
    have hmem : p.2 ∈ rows := by
      rw [hs.2, List.getD_eq_getElem _ _ hs.1]
      exact List.getElem_mem hs.1
    have hc' := hc p.2 hmem
    have hf' := hf p.2 hmem
    by_cases htop : p.1 ∈ topIdx rows
    · rw [if_pos htop]
      have hoc : 0 ≤ p.2.congestion_level * (85/100) := by positivity
      have hle : p.2.congestion_level * (85/100) ≤ p.2.congestion_level := by nlinarith
      have hpow : (p.2.congestion_level * (85/100)) ^ 4 ≤ p.2.congestion_level ^ 4 :=
        pow_le_pow_left₀ hoc hle 4
      have hbpr : (1/2 : ℚ) * (1 + (15/100) * (p.2.congestion_level * (85/100)) ^ 4)
          ≤ (1/2) * (1 + (15/100) * p.2.congestion_level ^ 4) := by nlinarith
      exact mul_le_mul_of_nonneg_left hbpr hf'
    · rw [if_neg htop]
  have hsys_enum : specSystemTime rows
      = (rows.enum.map (fun p =>
          (p.2.flow.getD 1000) * ((1/2) * (1 + (15/100) * p.2.congestion_level ^ 4)))).sum := by
    unfold specSystemTime
    conv_lhs => rw [← List.enum_map_snd rows]
    rw [List.map_map]
    rfl
  have hot_le : specOptimizedTime rows ≤ specSystemTime rows := by
    rw [hsys_enum]
    unfold specOptimizedTime
    exact List.sum_le_sum hterm
  have hN : (traffic_status_core rows).metrics.nash_cost = specSystemTime rows * 150 := rfl
  have hO : (traffic_status_core rows).metrics.optimized_cost
      = specOptimizedTime rows * 150 := rfl
  have hP : (traffic_status_core rows).metrics.price_of_anarchy
      = (if specOptimizedTime rows * 150 > 0
         then (specSystemTime rows * 150) / (specOptimizedTime rows * 150) else 1) := rfl
  have hcost : specOptimizedTime rows * 150 ≤ specSystemTime rows * 150 :=
    mul_le_mul_of_nonneg_right hot_le (by norm_num)
  refine ⟨by rw [hN, hO]; exact hcost, ?_⟩
  rw [hP]
  by_cases hpos : specOptimizedTime rows * 150 > 0
  · rw [if_pos hpos]
    exact (one_le_div hpos).mpr hcost
  · rw [if_neg hpos]

/-- The two-row snapshot used as a witness for C10. -/
def witRowsPoA : List Row :=
  [{ u := "A", v := "B", congestion_level := 9/10, flow := some 1000 },
   { u := "B", v := "C", congestion_level := 1/10, flow := some 500 }]

/-- Witness for C10 at a concrete two-row snapshot with explicit flows. -/
theorem C10_monetized_poa_ge_one_witness :
    (∀ r ∈ witRowsPoA, 0 ≤ r.congestion_level) ∧
    (∀ r ∈ witRowsPoA, 0 ≤ r.flow.getD 1000) ∧
    1 ≤ (traffic_status_core witRowsPoA).metrics.price_of_anarchy := by
  have hc : ∀ r ∈ witRowsPoA, 0 ≤ r.congestion_level := by
    intro r hr
    simp only [witRowsPoA, List.mem_cons, List.mem_singleton] at hr
    rcases hr with rfl | rfl | h
    · norm_num
    · norm_num
    · exact absurd h (List.not_mem_nil r)
  have hf : ∀ r ∈ witRowsPoA, 0 ≤ r.flow.getD 1000 := by
    intro r hr
    simp only [witRowsPoA, List.mem_cons, List.mem_singleton] at hr
    rcases hr with rfl | rfl | h
    · norm_num
    · norm_num
    · exact absurd h (List.not_mem_nil r)
  exact ⟨hc, hf, (C10_monetized_poa_ge_one witRowsPoA hc hf).2⟩

end Traffix
